import Mathlib

set_option maxRecDepth 8000

/- Shallow embedding of the orchestration core of src/main.py:
   intent gating (INTENT_VERBS), phrase-to-command resolution (the
   PHRASE_TO_CMD regex table), upload staging, dispatch to the shared
   InteractiveAudioProcessor instance, output location, and the merge
   route with its order validation.  Strings are modelled over ASCII,
   which covers every literal appearing in the source. -/

/-- ASCII case folding, modelling str.lower() on the ASCII inputs used here. -/
def charLower (c : Char) : Char :=
  if 'A' ≤ c ∧ c ≤ 'Z' then Char.ofNat (c.toNat + 32) else c

/-- The whitespace characters stripped by str.strip() and matched by the regex class \s. -/
def isSpaceChar (c : Char) : Bool :=
  c == ' ' || c == '\t' || c == '\n' || c == '\r' || c == '\x0B' || c == '\x0C'

/-- str.lower() (ASCII). -/
def pyLower (s : String) : String := String.mk (s.toList.map charLower)

/-- str.strip(): drop whitespace from both ends. -/
def pyStrip (s : String) : String :=
  String.mk (((s.toList.dropWhile isSpaceChar).reverse.dropWhile isSpaceChar).reverse)

/-- text.strip().lower(), the normalisation both resolver entry points apply. -/
def pyStripLower (s : String) : String := pyLower (pyStrip s)

/-- Word characters for the regex \b assertion (ASCII part of Python's \w). -/
def isWordChar (c : Char) : Bool :=
  (decide ('a' ≤ c) && decide (c ≤ 'z')) ||
  (decide ('A' ≤ c) && decide (c ≤ 'Z')) ||
  (decide ('0' ≤ c) && decide (c ≤ '9')) || (c == '_')

/-- Regular expressions as used in PHRASE_TO_CMD: literals, alternation,
concatenation, the zero-width word-boundary assertion \b, and starred
single-character classes (the table only ever stars a character class:
.* , \s* , \s+). -/
inductive Regex where
  | eps : Regex
  | chr : (Char → Bool) → Regex
  | starC : (Char → Bool) → Regex
  | seq : Regex → Regex → Regex
  | alt : Regex → Regex → Regex
  | bnd : Regex

/-- Word-ness of the character left of the current position (none at the edges). -/
def isWordOpt : Option Char → Bool
  | none => false
  | some c => isWordChar c

/-- The \b assertion holds between a word and a non-word position (string edges count as non-word). -/
def isBndAt (prev : Option Char) (s : List Char) : Bool :=
  isWordOpt prev != isWordOpt s.head?

/-- All ways a starred character class can consume a prefix of the input:
each result is the previous character and the remaining suffix. -/
def starMat (p : Char → Bool) : Option Char → List Char → List (Option Char × List Char)
  | prev, [] => [(prev, [])]
  | prev, c :: rest =>
    (prev, c :: rest) :: (if p c then starMat p (some c) rest else [])

/-- Backtracking matcher: all states (previous character, remaining suffix)
reachable by matching the regex at the start of the input. -/
def mat : Regex → Option Char → List Char → List (Option Char × List Char)
  | .eps, prev, s => [(prev, s)]
  | .chr _, _, [] => []
  | .chr p, _, c :: rest => if p c then [(some c, rest)] else []
  | .bnd, prev, s => if isBndAt prev s then [(prev, s)] else []
  | .alt a b, prev, s => mat a prev s ++ mat b prev s
  | .seq a b, prev, s => (mat a prev s).flatMap (fun pr => mat b pr.1 pr.2)
  | .starC p, prev, s => starMat p prev s

/-- re.search: does the regex match starting at some position of the input? -/
def searchAux (r : Regex) : Option Char → List Char → Bool
  | prev, [] => !(mat r prev []).isEmpty
  | prev, c :: rest => !(mat r prev (c :: rest)).isEmpty || searchAux r (some c) rest

/-- re.search on a whole string. -/
def searchRe (r : Regex) (s : String) : Bool := searchAux r none s.toList

/-- A literal character sequence. -/
def litC (l : List Char) : Regex :=
  l.foldr (fun c r => .seq (.chr (fun x => x == c)) r) .eps

/-- A literal string. -/
def lit (s : String) : Regex := litC s.toList

/-- n-ary alternation. -/
def altL : List Regex → Regex
  | [] => .eps
  | [r] => r
  | r :: rest => .alt r (altL rest)

/-- An optional group (...)?. -/
def opt (r : Regex) : Regex := .alt r .eps

/-- .* -/
def anyStar : Regex := .starC (fun _ => true)

/-- \s+ -/
def ws1 : Regex := .seq (.chr isSpaceChar) (.starC isSpaceChar)

/-- \s* -/
def ws0 : Regex := .starC isSpaceChar

/-- A power-user rule of the table: the bare canonical token between word boundaries. -/
def pw (t : String) : Regex × String := (.seq .bnd (.seq (lit t) .bnd), t)

/-- The ordered pattern table of src/main.py (PHRASE_TO_CMD), first match wins. -/
def PHRASE_TO_CMD : List (Regex × String) := [
  (.seq .bnd (.seq (altL [lit "remove", lit "reduce", lit "clean", lit "denoise"])
    (.seq anyStar (.seq (altL [.seq (lit "background") (.seq ws1 (lit "noise")),
      lit "noise", .seq (lit "hum") (opt (lit "s")), lit "buzz", lit "hiss"]) .bnd))), "rm bg"),
  (.seq .bnd (.seq (altL [lit "remove", lit "trim", lit "cut"])
    (.seq anyStar (.seq (opt (.seq (lit "long") ws1))
      (.seq (lit "silence") (.seq (opt (lit "s")) .bnd))))), "rm silence"),
  (.seq .bnd (.seq (lit "remove")
    (.seq anyStar (.seq (altL [lit "stutter", lit "stutters", lit "stuttering"]) .bnd))), "rm stutter"),
  (.seq .bnd (.seq (lit "remove")
    (.seq anyStar (.seq (altL [lit "filler", lit "um", lit "uh", lit "like",
      lit "you know", lit "sort of", lit "kinda"]) .bnd))), "rm filler"),
  (.seq .bnd (.seq (lit "remove")
    (.seq anyStar (.seq (.seq (lit "mouth") (.seq ws0
      (.seq (altL [lit "sound", lit "click", lit "smack", lit "noise"]) (opt (lit "s"))))) .bnd))), "rm mouth"),
  (.seq .bnd (.seq (lit "remove")
    (.seq anyStar (.seq (altL [lit "hesitation", lit "hesitations", lit "hesitant"]) .bnd))), "rm hesitation"),
  (.seq .bnd (.seq (altL [lit "reduce", lit "remove"])
    (.seq anyStar (.seq (altL [lit "breath", lit "breathing"]) .bnd))), "rm breath"),
  (.alt (.seq .bnd (.seq (lit "normalize") (.seq (opt (lit "d")) .bnd)))
    (.seq .bnd (.seq (altL [lit "level match", lit "level-match"]) .bnd)), "normalize"),
  (.seq .bnd (.seq (altL [.seq (lit "ai") (.seq ws0 (lit "enhance")),
      .seq (lit "enhance") (.seq anyStar (opt (.seq (lit "with") (.seq ws0 (lit "ai"))))),
      .seq (lit "ai") (.seq ws0 (lit "cleanup"))]) .bnd), "ai enhance"),
  (.seq .bnd (.seq (altL [lit "preserve", lit "keep"])
    (.seq anyStar (.seq (lit "music") .bnd))), "preserve music"),
  (altL [.seq .bnd (lit "transcribe"), lit "transcription",
    .seq (lit "speech") (.seq ws0 (.seq (lit "to") (.seq ws0 (.seq (lit "text") .bnd))))], "transcribe"),
  (.seq .bnd (.seq (altL [lit "apply", lit "do", lit "run", lit "perform", lit "process"])
    (.seq anyStar (.seq .bnd (.seq (altL [lit "all", lit "comprehensive", lit "everything"]) .bnd)))), "comprehensive"),
  (.seq .bnd (.seq (altL [lit "merge", lit "combine", lit "join", lit "concatenate", lit "splice"])
    (.seq anyStar (.seq (altL [lit "audio", lit "video", lit "file", lit "files",
      .seq (lit "clip") (opt (lit "s"))]) .bnd))), "merge"),
  pw "rm bg", pw "rm silence", pw "rm stutter", pw "rm filler", pw "rm mouth",
  pw "rm hesitation", pw "rm breath", pw "normalize", pw "ai enhance",
  pw "preserve music", pw "transcribe", pw "comprehensive", pw "merge"]

/-- The INTENT_VERBS list of src/main.py. -/
def INTENT_VERBS : List String := [
  "run", "apply", "execute", "perform", "process", "start", "begin", "do",
  "remove", "reduce", "normalize", "enhance", "transcribe", "preserve", "clean", "denoise",
  "merge", "combine", "join", "concatenate", "splice"]

/-- Does the first list start the second one (character-wise)? -/
def substrAt : List Char → List Char → Bool
  | [], _ => true
  | _ :: _, [] => false
  | c :: n, d :: h => c == d && substrAt n h

/-- Python's substring containment test, needle in haystack. -/
def substrOf : List Char → List Char → Bool
  | n, [] => substrAt n []
  | n, d :: t => substrAt n (d :: t) || substrOf n t

/-- _user_has_execute_intent: some verb occurs as a substring of the
stripped, lower-cased text. -/
def user_has_execute_intent (text : String) : Bool :=
  let t := pyStripLower text
  INTENT_VERBS.any (fun v => substrOf v.toList t.toList)

/-- _extract_command_from_user: the token of the first rule of
PHRASE_TO_CMD whose pattern matches the stripped, lower-cased text. -/
def extract_command_from_user (text : String) : Option String :=
  match PHRASE_TO_CMD.find? (fun pr => searchRe pr.1 (pyStripLower text)) with
  | some pr => some pr.2
  | none => none

/-- Splits a list at its last '/': the first part keeps the trailing slash,
the second part is the basename. -/
def splitLastSlash : List Char → List Char × List Char
  | [] => ([], [])
  | c :: rest =>
    let pb := splitLastSlash rest
    if pb.1.isEmpty then (if c = '/' then ([c], pb.2) else ([], c :: rest))
    else (c :: pb.1, pb.2)

/-- os.path.basename (posix): everything after the last '/'. -/
def pyBasename (p : String) : String := String.mk (splitLastSlash p.toList).2

/-- Splits a slash-free name at its last '.', the dot going with the extension. -/
def lastDotSplit : List Char → Option (List Char × List Char)
  | [] => none
  | c :: rest =>
    match lastDotSplit rest with
    | some se => some (c :: se.1, se.2)
    | none => if c = '.' then some ([], '.' :: rest) else none

/-- os.path.splitext on a basename: leading dots never start an extension. -/
def splitextBase (base : List Char) : List Char × List Char :=
  let lead := base.takeWhile (· = '.')
  let rest := base.drop lead.length
  match lastDotSplit rest with
  | none => (base, [])
  | some se => (lead ++ se.1, se.2)

/-- os.path.splitext (posix): root and extension. -/
def pySplitext (p : String) : String × String :=
  let pb := splitLastSlash p.toList
  let se := splitextBase pb.2
  (String.mk (pb.1 ++ se.1), String.mk se.2)

/-- os.path.join (posix, two components). -/
def pyJoin (a b : String) : String :=
  if b.toList.head? = some '/' then b
  else if a = "" ∨ a.toList.getLast? = some '/' then a ++ b
  else a ++ "/" ++ b

/-- os.path.isabs (posix). -/
def isAbsPath (p : String) : Bool := p.toList.head? == some '/'

/-- The staging extension: splitext's extension, or ".m4a" when empty
(the `ext = ext or ".m4a"` fallback). -/
def extOrDefault (fn : String) : String :=
  let e := (pySplitext fn).2
  if e = "" then ".m4a" else e

/-- The fixed staging path of the /process route: os.path.join("/tmp", f"input{ext}"). -/
def stagePathP (fn : String) : String := pyJoin "/tmp" ("input" ++ extOrDefault fn)

/-- The staging path of the i-th file of the /merge route:
os.path.join("/tmp", f"merge_input_{i}{ext}"). -/
def stagePathM (i : Nat) (fn : String) : String :=
  pyJoin "/tmp" ("merge_input_" ++ toString i ++ extOrDefault fn)

/-- command.replace(' ', '-'). -/
def hyphenate (c : String) : String :=
  String.mk (c.toList.map (fun ch => if ch = ' ' then '-' else ch))

/-- A decimal digit. -/
def isDigitChar (c : Char) : Bool := decide ('0' ≤ c) && decide (c ≤ '9')

/-- The digit body of a Python decimal integer literal, with PEP 515
grouping: at least one digit, and single underscores allowed only between
two digits (so no leading, trailing or doubled underscores). -/
def digitsGrouped : List Char → Bool
  | [] => false
  | [c] => isDigitChar c
  | c :: '_' :: rest => isDigitChar c && digitsGrouped rest
  | c :: d :: rest => isDigitChar c && digitsGrouped (d :: rest)

/-- Python int() on a string: optional surrounding whitespace, an optional
single sign, then digits with PEP 515 underscore grouping; the value
ignores the grouping underscores. -/
def pyParseInt (s : String) : Option Int :=
  let l := (s.toList.dropWhile isSpaceChar).reverse.dropWhile isSpaceChar |>.reverse
  let core : List Char × Bool :=
    match l with
    | '-' :: rest => (rest, true)
    | '+' :: rest => (rest, false)
    | _ => (l, false)
  if digitsGrouped core.1 then
    let n : Nat := (core.1.filter (fun c => c != '_')).foldl
      (fun acc c => 10 * acc + (c.toNat - '0'.toNat)) 0
    some (if core.2 then -(n : Int) else (n : Int))
  else none

/-- str.split(sep) for a one-character separator, keeping empty pieces. -/
def splitCharAux (sep : Char) : List Char → List Char → List (List Char)
  | acc, [] => [acc.reverse]
  | acc, c :: rest =>
    if c = sep then acc.reverse :: splitCharAux sep [] rest
    else splitCharAux sep (c :: acc) rest

/-- order.split(','). -/
def splitComma (s : String) : List String := (splitCharAux ',' [] s.toList).map String.mk

/-- Sequences a list of optional integers, failing on the first none. -/
def optList : List (Option Int) → Option (List Int)
  | [] => some []
  | none :: _ => none
  | some x :: rest => (optList rest).map (fun l => x :: l)

/-- The list comprehension [int(x.strip()) for x in order.split(',')]:
none models the ValueError path. -/
def parseOrder (o : String) : Option (List Int) :=
  optList ((splitComma o).map (fun x => pyParseInt (pyStrip x)))

/-- set(a) != set(b) test, as Boolean set equality over lists. -/
def sameSet (a b : List Int) : Bool :=
  a.all (fun x => b.contains x) && b.all (fun x => a.contains x)

/-- The shared InteractiveAudioProcessor instance iap: its per-call mutable
state is the current input file set by set_input_file. -/
structure Engine where
  input_file : Option String
deriving Repr, DecidableEq

/-- iap.set_input_file. -/
def set_input_file (e : Engine) (f : Option String) : Engine := { e with input_file := f }

/-- What one engine invocation observes: the shared instance's state at the
moment of the call, and the only explicit per-call argument, the command
token (iap.process_audio_file(command)). -/
structure EngineCall where
  stateAtCall : Engine
  commandArg : String
deriving Repr, DecidableEq

/-- The dispatch step of the /process route, lines 445-450:
iap.set_input_file(local_in); out = process_audio_file(command);
finally iap.set_input_file(None).  Returns the observed call and the
state of the shared instance after the finally block. -/
def dispatchStep (e : Engine) (localIn : String) (cmd : String) : EngineCall × Engine :=
  let e1 := set_input_file e (some localIn)
  (⟨e1, cmd⟩, set_input_file e1 none)

/-- Modelled from the spec: the supported-operations set of the Processing
Engine (iap.function_map of interactive_audio_processor.py, which is not
under src/).  Spec section 3 fixes the closed token vocabulary. -/
def functionMapKeys : List String := ["rm bg", "rm silence", "rm stutter", "rm filler",
  "rm mouth", "rm hesitation", "rm breath", "normalize", "ai enhance",
  "preserve music", "transcribe", "comprehensive", "merge"]

/-- The guessed output name f"{stem}-{command.replace(' ', '-')}{ext}"
where stem is splitext(basename(local_in))[0]. -/
def guessName (localIn ext cmd : String) : String :=
  (pySplitext (pyBasename localIn)).1 ++ "-" ++ hyphenate cmd ++ ext

/-- The candidate output locations of the /process route, in evaluation
order: the engine-returned path as-is when absolute, else resolved against
the working directory and against /tmp; then the guessed name in the
working directory and in /tmp. -/
def candidatesFor (op cwd localIn ext cmd : String) : List String :=
  (if isAbsPath op then [op] else [pyJoin cwd op, pyJoin "/tmp" op])
    ++ [pyJoin cwd (guessName localIn ext cmd), pyJoin "/tmp" (guessName localIn ext cmd)]

/-- next((p for p in candidates if os.path.exists(p)), None): the first
candidate present on storage, the storage being modelled as the list of
existing paths. -/
def locate (fs : List String) (op cwd localIn ext cmd : String) : Option String :=
  (candidatesFor op cwd localIn ext cmd).find? (fun p => fs.contains p)

/-- The JSON/stream responses the /process route can produce. -/
inductive ProcessResp where
  | noFile : ProcessResp
  | noIntent : ProcessResp
  | unmapped : ProcessResp
  | unknownCmd : String → ProcessResp
  | engineNoOutput : ProcessResp
  | outputNotFound : ProcessResp
  | ok : String → String → ProcessResp
deriving Repr, DecidableEq

/-- Everything observable about one /process request: the response, the
staged path, the engine call and the shared instance's state after it, and
the ephemeral files deleted before the request ends. -/
structure ProcessOutcome where
  resp : ProcessResp
  staged : Option String
  call : Option EngineCall
  engineFinal : Option Engine
  deleted : List String
deriving Repr, DecidableEq

/-- Resolution from the message alone: the message must carry intent and
map to a token through the pattern table. -/
def resolveFromMsg (msg : String) : Except ProcessResp String :=
  if user_has_execute_intent msg = false then .error .noIntent
  else match extract_command_from_user msg with
    | none => .error .unmapped
    | some c => .ok c

/-- Command resolution of the /process route: an explicit non-empty
override is used as-is (the `if not command` test treats None and ""
alike), otherwise the message is resolved. -/
def resolveCommand (msg : String) : Option String → Except ProcessResp String
  | none => resolveFromMsg msg
  | some c => if c = "" then resolveFromMsg msg else .ok c

/-- The response of the /process route after dispatch: the engine must
have returned a non-empty path, and the locator must find a candidate. -/
def processLocateResp (fn cmd cwd : String) (eo : Option String)
    (fs : List String) : ProcessResp :=
  match eo with
  | none => .engineNoOutput
  | some op =>
    if op = "" then .engineNoOutput
    else match locate fs op cwd (stagePathP fn) (extOrDefault fn) cmd with
      | none => .outputNotFound
      | some pth => .ok pth (pyBasename pth)

/-- The /process route once a command token is resolved: supported-set
check, staging, dispatch through the shared engine instance, then output
location.  The route deletes no ephemeral files. -/
def processAfterResolve (fn cmd : String) (e : Engine) (eo : Option String)
    (cwd : String) (fs : List String) : ProcessOutcome :=
  if cmd ∉ functionMapKeys then ⟨.unknownCmd cmd, none, none, none, []⟩
  else ⟨processLocateResp fn cmd cwd eo fs, some (stagePathP fn),
        some (dispatchStep e (stagePathP fn) cmd).1,
        some (dispatchStep e (stagePathP fn) cmd).2, []⟩

/-- The /process route (src/main.py lines 406-483).  fn is the uploaded
filename ("" when absent), e the shared engine instance, eo what
process_audio_file returned (none models None), cwd the working directory
and fs the existing ephemeral/working files. -/
def processRun (fn msg : String) (cmdOpt : Option String) (e : Engine)
    (eo : Option String) (cwd : String) (fs : List String) : ProcessOutcome :=
  if fn = "" then ⟨.noFile, none, none, none, []⟩
  else match resolveCommand msg cmdOpt with
    | .error r => ⟨r, none, none, none, []⟩
    | .ok cmd => processAfterResolve fn cmd e eo cwd fs

/-- The JSON/stream responses the /merge route can produce. -/
inductive MergeResp where
  | needTwo : MergeResp
  | needTwoValid : MergeResp
  | noIntent : MergeResp
  | orderParseErr : MergeResp
  | orderLenErr : MergeResp
  | orderSetErr : MergeResp
  | engineErr : String → MergeResp
  | ok : String → String → MergeResp
deriving Repr, DecidableEq

/-- The empty-filename filter [f for f in uploaded_files if f.filename and f.filename.strip()]. -/
def validFiles (files : List String) : List String :=
  files.filter (fun f => pyStrip f ≠ "")

/-- The order-handling block of the /merge route (lines 367-377): parse the
comma-separated indices, check the length, check the value set against
range(n), and reorder. -/
def orderStep (staged : List String) : Option String → Except MergeResp (List String)
  | none => .ok staged
  | some o =>
    if o = "" then .ok staged
    else match parseOrder o with
      | none => .error .orderParseErr
      | some idxs =>
        if idxs.length ≠ staged.length then .error .orderLenErr
        else if sameSet idxs ((List.range staged.length).map (fun k : Nat => (k : Int))) = false then
          .error .orderSetErr
        else .ok (idxs.map (fun i => staged.getD i.toNat ""))

/-- Everything observable about one /merge request: the response, the
staged paths, the ordered list handed to the Merge Engine (none when it
was never invoked), the output path given to it, and the ephemeral files
deleted by the finally block. -/
structure MergeOutcome where
  resp : MergeResp
  staged : List String
  engineArg : Option (List String)
  outPath : Option String
  deleted : List String
deriving Repr, DecidableEq

/-- output_filename = f"merged{first_ext}" with first_ext =
splitext(local_files[0])[1]. -/
def mergeOutName (ordered : List String) : String :=
  "merged" ++ (pySplitext (ordered.headD "")).2

/-- output_path = os.path.join("/tmp", output_filename). -/
def mergeOutPath (ordered : List String) : String := pyJoin "/tmp" (mergeOutName ordered)

/-- The /merge route after the gates: staging done, order handling, merge
engine call, and the finally-block cleanup of the (possibly reordered)
local_files binding. -/
def mergeStagedRun (staged : List String) (order : Option String)
    (engine : List String → String → Except String String) : MergeOutcome :=
  match orderStep staged order with
  | .error r => ⟨r, staged, none, none, staged⟩
  | .ok ordered =>
    match engine ordered (mergeOutPath ordered) with
    | .error err => ⟨.engineErr err, staged, some ordered, some (mergeOutPath ordered), ordered⟩
    | .ok p => ⟨.ok p (mergeOutName ordered), staged, some ordered, some (mergeOutPath ordered), ordered⟩

/-- The staged paths of a /merge request, in upload order. -/
def mergeStaged (files : List String) : List String :=
  (validFiles files).enum.map (fun p => stagePathM p.1 p.2)

/-- The /merge route (src/main.py lines 322-404).  files are the uploaded
filenames, engine models merge_files (ordered inputs and output path to
merged path, or a raised error). -/
def mergeRun (files : List String) (message : String) (order : Option String)
    (engine : List String → String → Except String String) : MergeOutcome :=
  if files.length < 2 then ⟨.needTwo, [], none, none, []⟩
  else if (validFiles files).length < 2 then ⟨.needTwoValid, [], none, none, []⟩
  else if message ≠ "" ∧ user_has_execute_intent message = false then
    ⟨.noIntent, [], none, none, []⟩
  else mergeStagedRun (mergeStaged files) order engine

/-- The bare canonical token strings: exactly the right-hand sides of the
pattern table (the power-user rules' tokens). -/
def bareTokens : List String := ["rm bg", "rm silence", "rm stutter", "rm filler",
  "rm mouth", "rm hesitation", "rm breath", "normalize", "ai enhance",
  "preserve music", "transcribe", "comprehensive", "merge"]

/-- The descriptive-phrase rules: the first 13 entries of the table, before
the power-user token rules. -/
def descriptiveRules : List (Regex × String) := PHRASE_TO_CMD.take 13

/-- The character immediately preceding the current position after
consuming a list, starting from a given left context. -/
def prevAfter (prev : Option Char) (l : List Char) : Option Char :=
  l.foldl (fun _ c => some c) prev

/-- The token t occurs in s delimited by word boundaries on both sides. -/
def boundedOccurs (t s : List Char) : Prop :=
  ∃ pre post, s = pre ++ t ++ post ∧
    isBndAt (prevAfter none pre) (t ++ post) = true ∧
    isBndAt (prevAfter none (pre ++ t)) post = true

/-- The supplied indices are exactly a permutation of 0..n-1: every entry
is in range and every position is covered (spec section 4.5's bijection
onto [0, N)). -/
def permCond (idxs : List Int) (n : Nat) : Prop :=
  (∀ x ∈ idxs, 0 ≤ x ∧ x < (n : Int)) ∧ (∀ k : Nat, k < n → (k : Int) ∈ idxs)

instance (idxs : List Int) (n : Nat) : Decidable (permCond idxs n) := by
  unfold permCond
  infer_instance

/-- Spec-side predicate (section 4.4 item 5): an ephemeral-root entry whose
name starts with the input's stem followed by a hyphen and which shares
the input's extension. -/
def tmpScanMatch (localIn ext entry : String) : Bool :=
  substrAt ("/tmp/" ++ (pySplitext (pyBasename localIn)).1 ++ "-").toList entry.toList
    && substrAt ext.toList.reverse entry.toList.reverse

/-! ### Helper lemmas -/

theorem find?_first_char {α : Type} (p : α → Bool) :
    ∀ (l : List α) (a : α), l.find? p = some a ↔
      p a = true ∧ ∃ pre post, l = pre ++ a :: post ∧ ∀ x ∈ pre, p x = false
  | [], a => by
      constructor
      · intro h; simp [List.find?] at h
      · rintro ⟨-, pre, post, h, -⟩; exact absurd h (by simp)
  | c :: t, a => by
      cases hc : p c with
      | true =>
        rw [List.find?_cons_of_pos _ hc]
        constructor
        · rintro ⟨rfl⟩; exact ⟨hc, [], t, rfl, by simp⟩
        · rintro ⟨hpa, pre, post, heq, hpre⟩
          cases pre with
          | nil => simp at heq; rw [heq.1]
          | cons d pre' =>
            simp at heq
            have := hpre d (by simp)
            rw [← heq.1] at this; rw [this] at hc; cases hc
      | false =>
        rw [List.find?_cons_of_neg _ (by simp [hc])]
        rw [find?_first_char p t a]
        constructor
        · rintro ⟨hpa, pre, post, heq, hpre⟩
          exact ⟨hpa, c :: pre, post, by simp [heq], by
            intro x hx
            rcases List.mem_cons.mp hx with rfl | hx
            · exact hc
            · exact hpre x hx⟩
        · rintro ⟨hpa, pre, post, heq, hpre⟩
          cases pre with
          | nil =>
            simp at heq
            rw [heq.1] at hc; rw [hc] at hpa; cases hpa
          | cons d pre' =>
            simp at heq
            exact ⟨hpa, pre', post, heq.2, fun x hx => hpre x (by simp [hx])⟩

theorem optList_eq_none (l : List (Option Int)) : optList l = none ↔ none ∈ l := by
  induction l with
  | nil => simp [optList]
  | cons c t ih =>
    cases c with
    | none => simp [optList]
    | some x =>
      simp only [optList, List.mem_cons]
      constructor
      · intro h
        cases ht : optList t with
        | none => exact Or.inr (ih.mp ht)
        | some l2 => rw [ht] at h; simp [Option.map] at h
      · rintro (h | h)
        · cases h
        · rw [ih.mpr h]; rfl

theorem parseOrder_eq_none (o : String) :
    parseOrder o = none ↔ ∃ x ∈ splitComma o, pyParseInt (pyStrip x) = none := by
  unfold parseOrder
  rw [optList_eq_none]
  constructor
  · intro h
    obtain ⟨x, hx, hfx⟩ := List.mem_map.mp h
    exact ⟨x, hx, hfx⟩
  · rintro ⟨x, hx, hfx⟩
    exact List.mem_map.mpr ⟨x, hx, hfx⟩

theorem contains_iff_mem_int (l : List Int) (x : Int) : l.contains x = true ↔ x ∈ l := by
  simp [List.contains]

theorem sameSet_range (idxs : List Int) (n : Nat) :
    sameSet idxs ((List.range n).map (fun k : Nat => (k : Int))) = true ↔ permCond idxs n := by
  unfold sameSet permCond
  rw [Bool.and_eq_true, List.all_eq_true, List.all_eq_true]
  constructor
  · rintro ⟨h1, h2⟩
    constructor
    · intro x hx
      have hm := contains_iff_mem_int _ _ |>.mp (h1 x hx)
      obtain ⟨k, hk, rfl⟩ := List.mem_map.mp hm
      have := List.mem_range.mp hk
      omega
    · intro k hk
      have : ((k : Int)) ∈ (List.range n).map Int.ofNat :=
        List.mem_map.mpr ⟨k, List.mem_range.mpr hk, rfl⟩
      exact (contains_iff_mem_int _ _).mp (h2 _ this)
  · rintro ⟨h1, h2⟩
    constructor
    · intro x hx
      obtain ⟨hge, hlt⟩ := h1 x hx
      refine (contains_iff_mem_int _ _).mpr (List.mem_map.mpr ⟨x.toNat, List.mem_range.mpr ?_, ?_⟩)
      · omega
      · omega
    · intro y hy
      obtain ⟨k, hk, rfl⟩ := List.mem_map.mp hy
      exact (contains_iff_mem_int _ _).mpr (h2 k (List.mem_range.mp hk))

theorem mergeRun_eq_staged (files : List String) (msg : String) (ord : Option String)
    (eng : List String → String → Except String String)
    (h2 : 2 ≤ files.length) (hv : 2 ≤ (validFiles files).length)
    (hi : msg = "" ∨ user_has_execute_intent msg = true) :
    mergeRun files msg ord eng = mergeStagedRun (mergeStaged files) ord eng := by
  unfold mergeRun
  rw [if_neg (by omega), if_neg (by omega), if_neg]
  rintro ⟨hne, hfalse⟩
  rcases hi with h | h
  · exact hne h
  · rw [h] at hfalse; cases hfalse

theorem mergeStagedRun_staged (staged : List String) (ord : Option String)
    (eng : List String → String → Except String String) :
    (mergeStagedRun staged ord eng).staged = staged := by
  unfold mergeStagedRun
  rcases horder : orderStep staged ord with r | ordered
  · rfl
  · rcases heng : eng ordered (mergeOutPath ordered) with err | p <;> simp [heng]

/-! ### Claim theorems -/

/-- C4: for every input exactly equal to a bare canonical token string,
resolve returns that exact token, and no earlier descriptive-phrase rule
matches a bare token string while mapping it to a different token. -/
theorem bare_tokens_resolve_exactly : ∀ t ∈ bareTokens,
    extract_command_from_user t = some t ∧
    ∀ pr ∈ descriptiveRules, searchRe pr.1 (pyStripLower t) = true → pr.2 = t := by
  decide

/-- Witness for C4 at the concrete bare token "rm bg". -/
theorem bare_tokens_resolve_exactly_witness :
    extract_command_from_user "rm bg" = some "rm bg" :=
  (bare_tokens_resolve_exactly "rm bg" (by decide)).1

/-- C1 counterexample: dispatching one /process request does not leave the
shared engine instance's state unchanged — the staged input is written
into the shared instance for the duration of the call and the slot is
reset to none afterwards, so a prior state is destroyed; the invocation's
only explicit argument is the command token. -/
theorem dispatch_mutates_shared_engine :
    (processRun "a.wav" "remove background noise" none ⟨some "/tmp/other.wav"⟩
        (some "/x.wav") "/app" []).call
      = some ⟨⟨some "/tmp/input.wav"⟩, "rm bg"⟩ ∧
    (processRun "a.wav" "remove background noise" none ⟨some "/tmp/other.wav"⟩
        (some "/x.wav") "/app" []).engineFinal = some ⟨none⟩ ∧
    decide ((⟨none⟩ : Engine) = ⟨some "/tmp/other.wav"⟩) = false := by decide

/-- C1 amended: the dispatch step communicates the input asset by mutating
the shared engine instance — it sets input_file to the staged path before
the invocation (whose only explicit argument is the command token) and
resets it to none in the finally block, so after dispatch the shared
state is none rather than its prior value. -/
theorem dispatch_threads_input_through_shared_state :
    (∀ (e : Engine) (li c : String),
        (dispatchStep e li c).1.stateAtCall.input_file = some li ∧
        (dispatchStep e li c).1.commandArg = c ∧
        (dispatchStep e li c).2.input_file = none) ∧
    (∀ fn msg cmdOpt e eo cwd fs cl,
        (processRun fn msg cmdOpt e eo cwd fs).call = some cl →
        cl.stateAtCall.input_file = some (stagePathP fn)) ∧
    (∀ fn msg cmdOpt e eo cwd fs ef,
        (processRun fn msg cmdOpt e eo cwd fs).engineFinal = some ef →
        ef.input_file = none) := by
  refine ⟨fun e li c => ⟨rfl, rfl, rfl⟩, ?_, ?_⟩
  · intro fn msg cmdOpt e eo cwd fs cl h
    unfold processRun processAfterResolve at h
    split at h
    · simp at h
    · split at h
      · simp at h
      · split at h
        · simp at h
        · simp at h; rw [← h]; rfl
  · intro fn msg cmdOpt e eo cwd fs ef h
    unfold processRun processAfterResolve at h
    split at h
    · simp at h
    · split at h
      · simp at h
      · split at h
        · simp at h
        · simp at h; rw [← h]; rfl

/-- Witness for C1's amended theorem: a concrete /process run whose engine
call carries the staged path in the shared state and whose final shared
state is cleared. -/
theorem dispatch_threads_input_witness :
    (⟨⟨some "/tmp/input.ogg"⟩, "rm bg"⟩ : EngineCall).stateAtCall.input_file
      = some (stagePathP "d.ogg") :=
  dispatch_threads_input_through_shared_state.2.1 "d.ogg" "remove the hums" none
    ⟨none⟩ none "/w" [] ⟨⟨some "/tmp/input.ogg"⟩, "rm bg"⟩ (by decide)

/-- C2 counterexample: two distinct /process requests with same-extension
uploads are staged at the identical fixed ephemeral path /tmp/input.wav,
and two distinct /merge requests are staged at identical fixed paths. -/
theorem fixed_staging_name_collides :
    (("a.wav" : String) == "b.wav") = false ∧
    (processRun "a.wav" "remove background noise" none ⟨none⟩ none "/app" []).staged
      = some "/tmp/input.wav" ∧
    (processRun "b.wav" "remove background noise" none ⟨none⟩ none "/app" []).staged
      = some "/tmp/input.wav" ∧
    (mergeRun ["x.mp3", "y.mp3"] "" none (fun _ op => Except.ok op)).staged
      = (mergeRun ["z.mp3", "w.mp3"] "" none (fun _ op => Except.ok op)).staged := by
  decide

/-- C2 amended: staging paths carry no per-request unique component — they
depend only on the upload's extension (and the index within one merge
request), so any two requests whose files share an extension are assigned
the same ephemeral path. -/
theorem staging_paths_fixed_per_extension :
    (∀ f1 f2 : String, extOrDefault f1 = extOrDefault f2 → stagePathP f1 = stagePathP f2) ∧
    (∀ (i : Nat) (f1 f2 : String), extOrDefault f1 = extOrDefault f2 →
        stagePathM i f1 = stagePathM i f2) ∧
    (∀ fn msg cmdOpt e eo cwd fs,
        (processRun fn msg cmdOpt e eo cwd fs).staged = none ∨
        (processRun fn msg cmdOpt e eo cwd fs).staged = some (stagePathP fn)) ∧
    (∀ files msg ord eng,
        (mergeRun files msg ord eng).staged = [] ∨
        (mergeRun files msg ord eng).staged = mergeStaged files) := by
  refine ⟨?_, ?_, ?_, ?_⟩
  · intro f1 f2 h; unfold stagePathP; rw [h]
  · intro i f1 f2 h; unfold stagePathM; rw [h]
  · intro fn msg cmdOpt e eo cwd fs
    unfold processRun processAfterResolve
    split
    · left; rfl
    · split
      · left; rfl
      · split
        · left; rfl
        · right; rfl
  · intro files msg ord eng
    unfold mergeRun
    split
    · left; rfl
    · split
      · left; rfl
      · split
        · left; rfl
        · right; exact mergeStagedRun_staged _ _ _

/-- Witness for C2's amended theorem at two concrete same-extension uploads. -/
theorem staging_paths_fixed_witness : stagePathP "one.flac" = stagePathP "two.flac" :=
  staging_paths_fixed_per_extension.1 "one.flac" "two.flac" (by decide)

/-- C3: a successful /process request deletes nothing — its staged input
remains in ephemeral storage — and a successful /merge request deletes its
staged inputs but never the produced output artifact. -/
theorem cleanup_missing_on_exit :
    (processRun "a.wav" "remove background noise" none ⟨none⟩
        (some "/tmp/input-rm-bg.wav") "/app" ["/tmp/input-rm-bg.wav", "/tmp/input.wav"]).resp
      = .ok "/tmp/input-rm-bg.wav" "input-rm-bg.wav" ∧
    (processRun "a.wav" "remove background noise" none ⟨none⟩
        (some "/tmp/input-rm-bg.wav") "/app" ["/tmp/input-rm-bg.wav", "/tmp/input.wav"]).staged
      = some "/tmp/input.wav" ∧
    (processRun "a.wav" "remove background noise" none ⟨none⟩
        (some "/tmp/input-rm-bg.wav") "/app" ["/tmp/input-rm-bg.wav", "/tmp/input.wav"]).deleted
      = [] ∧
    (mergeRun ["a.mp3", "b.mp3"] "merge these audio files" none (fun _ op => Except.ok op)).resp
      = .ok "/tmp/merged.mp3" "merged.mp3" ∧
    (mergeRun ["a.mp3", "b.mp3"] "merge these audio files" none (fun _ op => Except.ok op)).outPath
      = some "/tmp/merged.mp3" ∧
    (mergeRun ["a.mp3", "b.mp3"] "merge these audio files" none (fun _ op => Except.ok op)).deleted
      = ["/tmp/merge_input_0.mp3", "/tmp/merge_input_1.mp3"] ∧
    ((mergeRun ["a.mp3", "b.mp3"] "merge these audio files" none
        (fun _ op => Except.ok op)).deleted.contains "/tmp/merged.mp3") = false := by
  decide

/-- C9 counterexample: a /merge request with an empty message reaches the
Merge Engine even though hasIntent is false on the empty text — the intent
gate is only applied to non-empty messages. -/
theorem merge_empty_message_skips_intent_gate :
    user_has_execute_intent "" = false ∧
    (mergeRun ["a.mp3", "b.mp3"] "" none (fun _ op => Except.ok op)).resp
      = .ok "/tmp/merged.mp3" "merged.mp3" ∧
    (mergeRun ["a.mp3", "b.mp3"] "" none (fun _ op => Except.ok op)).engineArg
      = some ["/tmp/merge_input_0.mp3", "/tmp/merge_input_1.mp3"] := by
  decide

/-- C9 amended: hasIntent is substring containment of some verb in the
stripped lower-cased text and is false on empty text; /process rejects
verb-free messages with NoIntentDetected before staging or dispatch when
no explicit command override is supplied; /merge rejects verb-free
messages only when the message is non-empty. -/
theorem intent_gate_behavior :
    user_has_execute_intent "" = false ∧
    (∀ t, user_has_execute_intent t = true ↔
        ∃ v ∈ INTENT_VERBS, substrOf v.toList (pyStripLower t).toList = true) ∧
    (∀ fn msg e eo cwd fs, fn ≠ "" → user_has_execute_intent msg = false →
        processRun fn msg none e eo cwd fs = ⟨.noIntent, none, none, none, []⟩) ∧
    (∀ files msg ord eng, 2 ≤ files.length → 2 ≤ (validFiles files).length →
        msg ≠ "" → user_has_execute_intent msg = false →
        mergeRun files msg ord eng = ⟨.noIntent, [], none, none, []⟩) := by
  refine ⟨by decide, ?_, ?_, ?_⟩
  · intro t
    unfold user_has_execute_intent
    rw [List.any_eq_true]
  · intro fn msg e eo cwd fs hfn hmsg
    have hres : resolveCommand msg none = .error .noIntent := by
      simp only [resolveCommand, resolveFromMsg]
      rw [hmsg, if_pos rfl]
    unfold processRun
    rw [if_neg hfn, hres]
  · intro files msg ord eng h2 hv hmsg hfalse
    unfold mergeRun
    rw [if_neg (by omega), if_neg (by omega), if_pos ⟨hmsg, hfalse⟩]

/-- Witness for C9's amended theorem on the verb-free message "hello there". -/
theorem intent_gate_behavior_witness :
    processRun "a.wav" "hello there" none ⟨none⟩ none "/w" []
      = ⟨.noIntent, none, none, none, []⟩ ∧
    mergeRun ["a.mp3", "b.mp3"] "hello there" none (fun _ op => Except.ok op)
      = ⟨.noIntent, [], none, none, []⟩ :=
  ⟨intent_gate_behavior.2.2.1 "a.wav" "hello there" ⟨none⟩ none "/w" [] (by decide) (by decide),
   intent_gate_behavior.2.2.2 ["a.mp3", "b.mp3"] "hello there" none (fun _ op => Except.ok op)
     (by decide) (by decide) (by decide) (by decide)⟩

/-- C10: a /merge order string with a non-integer entry fails with the
400 invalid-order response before the Merge Engine is invoked, and the
cleanup runs over the unreordered staged list. -/
theorem merge_order_parse_rejects (files : List String) (msg o : String)
    (eng : List String → String → Except String String)
    (h2 : 2 ≤ files.length) (hv : 2 ≤ (validFiles files).length)
    (hi : msg = "" ∨ user_has_execute_intent msg = true) (ho : o ≠ "")
    (hbad : ∃ x ∈ splitComma o, pyParseInt (pyStrip x) = none) :
    mergeRun files msg (some o) eng
      = ⟨.orderParseErr, mergeStaged files, none, none, mergeStaged files⟩ := by
  have hord : orderStep (mergeStaged files) (some o) = .error .orderParseErr := by
    simp only [orderStep]
    rw [if_neg ho, (parseOrder_eq_none o).mpr hbad]
  rw [mergeRun_eq_staged files msg (some o) eng h2 hv hi]
  unfold mergeStagedRun
  rw [hord]

/-- Witness for C10 at the concrete order string "1,a". -/
theorem merge_order_parse_rejects_witness :
    mergeRun ["a.mp3", "b.mp3"] "" (some "1,a") (fun _ op => Except.ok op)
      = ⟨.orderParseErr, mergeStaged ["a.mp3", "b.mp3"], none, none,
         mergeStaged ["a.mp3", "b.mp3"]⟩ :=
  merge_order_parse_rejects ["a.mp3", "b.mp3"] "" "1,a" (fun _ op => Except.ok op)
    (by decide) (by decide) (Or.inl rfl) (by decide) ⟨"a", by decide, by decide⟩

theorem orderStep_some (staged : List String) (o : String) (idxs : List Int)
    (ho : o ≠ "") (hp : parseOrder o = some idxs) :
    orderStep staged (some o) =
      (if idxs.length ≠ staged.length then .error .orderLenErr
       else if sameSet idxs ((List.range staged.length).map (fun k : Nat => (k : Int))) = false then
         .error .orderSetErr
       else .ok (idxs.map (fun i => staged.getD i.toNat ""))) := by
  simp only [orderStep]
  rw [if_neg ho, hp]

theorem mergeStagedRun_error (staged : List String) (ord : Option String)
    (eng : List String → String → Except String String) (r : MergeResp)
    (h : orderStep staged ord = .error r) :
    mergeStagedRun staged ord eng = ⟨r, staged, none, none, staged⟩ := by
  unfold mergeStagedRun
  rw [h]

theorem mergeStagedRun_ok (staged : List String) (ord : Option String)
    (eng : List String → String → Except String String) (ordered : List String)
    (h : orderStep staged ord = .ok ordered) :
    (mergeStagedRun staged ord eng).engineArg = some ordered ∧
    (mergeStagedRun staged ord eng).deleted = ordered := by
  unfold mergeStagedRun
  rw [h]
  rcases heng : eng ordered (mergeOutPath ordered) with err | p <;> simp [heng]

/-- C6: with at least two valid staged assets, a supplied comma-separated
integer order whose length differs from the asset count fails with the
length-mismatch error before the Merge Engine is invoked; one whose value
set is not exactly a permutation of 0..N-1 fails with the set-mismatch
error before the engine is invoked; a valid permutation reorders the
staged assets for the engine; and an absent order merges in upload order. -/
theorem merge_order_validation (files : List String) (msg o : String) (idxs : List Int)
    (eng : List String → String → Except String String)
    (h2 : 2 ≤ files.length) (hv : 2 ≤ (validFiles files).length)
    (hi : msg = "" ∨ user_has_execute_intent msg = true)
    (ho : o ≠ "") (hp : parseOrder o = some idxs) :
    (idxs.length ≠ (mergeStaged files).length →
      mergeRun files msg (some o) eng
        = ⟨.orderLenErr, mergeStaged files, none, none, mergeStaged files⟩) ∧
    (idxs.length = (mergeStaged files).length →
      ¬ permCond idxs (mergeStaged files).length →
      mergeRun files msg (some o) eng
        = ⟨.orderSetErr, mergeStaged files, none, none, mergeStaged files⟩) ∧
    (idxs.length = (mergeStaged files).length →
      permCond idxs (mergeStaged files).length →
      (mergeRun files msg (some o) eng).engineArg
        = some (idxs.map (fun i => (mergeStaged files).getD i.toNat ""))) ∧
    (mergeRun files msg none eng).engineArg = some (mergeStaged files) := by
  have hgate := fun ord => mergeRun_eq_staged files msg ord eng h2 hv hi
  have hsome := orderStep_some (mergeStaged files) o idxs ho hp
  refine ⟨?_, ?_, ?_, ?_⟩
  · intro hlen
    rw [hgate (some o)]
    exact mergeStagedRun_error _ _ _ _ (by rw [hsome, if_pos hlen])
  · intro hlen hperm
    have hfalse : sameSet idxs ((List.range (mergeStaged files).length).map
        (fun k : Nat => (k : Int))) = false := by
      cases hss : sameSet idxs ((List.range (mergeStaged files).length).map
          (fun k : Nat => (k : Int))) with
      | true => exact absurd ((sameSet_range _ _).mp hss) hperm
      | false => rfl
    rw [hgate (some o)]
    refine mergeStagedRun_error _ _ _ _ ?_
    rw [hsome, if_neg (by omega), if_pos hfalse]
  · intro hlen hperm
    have htrue := (sameSet_range idxs (mergeStaged files).length).mpr hperm
    rw [hgate (some o)]
    refine (mergeStagedRun_ok _ _ _ _ ?_).1
    rw [hsome, if_neg (by omega), if_neg (by simp [htrue])]
  · rw [hgate none]
    exact (mergeStagedRun_ok _ _ _ _ (by simp only [orderStep])).1

/-- Witness for C6 at four concrete assets with the order "3,1,0,2". -/
theorem merge_order_validation_witness :
    (mergeRun ["a.mp3", "b.mp3", "c.mp3", "d.mp3"] "" (some "3,1,0,2")
        (fun _ op => Except.ok op)).engineArg
      = some ["/tmp/merge_input_3.mp3", "/tmp/merge_input_1.mp3",
              "/tmp/merge_input_0.mp3", "/tmp/merge_input_2.mp3"] := by
  have h := (merge_order_validation ["a.mp3", "b.mp3", "c.mp3", "d.mp3"] "" "3,1,0,2"
    [3, 1, 0, 2] (fun _ op => Except.ok op) (by decide) (by decide) (Or.inl rfl)
    (by decide) (by decide)).2.2.1 (by decide) (by decide)
  rw [h]
  decide

theorem processRun_override (fn msg c : String) (e : Engine) (eo : Option String)
    (cwd : String) (fs : List String)
    (hfn : fn ≠ "") (hc : c ≠ "") (hmem : c ∈ functionMapKeys) :
    processRun fn msg (some c) e eo cwd fs =
      ⟨processLocateResp fn c cwd eo fs, some (stagePathP fn),
       some (dispatchStep e (stagePathP fn) c).1,
       some (dispatchStep e (stagePathP fn) c).2, []⟩ := by
  have hres : resolveCommand msg (some c) = .ok c := by
    simp only [resolveCommand]
    rw [if_neg hc]
  unfold processRun
  rw [if_neg hfn, hres]
  show processAfterResolve fn c e eo cwd fs = _
  unfold processAfterResolve
  rw [if_neg (by simp [hmem])]

/-- C8 counterexample: when the engine returns no output path at all, the
/process route fails with the processing-failed error without evaluating
any candidate, even though the guessed-name candidate exists in the
ephemeral root — it does not proceed to the guessed-name candidates and
does not fail with OutputNotFound. -/
theorem engine_no_path_short_circuits :
    (processRun "a.wav" "x" (some "rm bg") ⟨none⟩ none "/app" ["/tmp/input-rm-bg.wav"]).resp
      = .engineNoOutput ∧
    pyJoin "/tmp" (guessName "/tmp/input.wav" ".wav" "rm bg") = "/tmp/input-rm-bg.wav" ∧
    ("/tmp/input-rm-bg.wav" : String) ∈ ["/tmp/input-rm-bg.wav"] ∧
    decide ((processRun "a.wav" "x" (some "rm bg") ⟨none⟩ none "/app"
        ["/tmp/input-rm-bg.wav"]).resp = .outputNotFound) = false ∧
    decide ((processRun "a.wav" "x" (some "rm bg") ⟨none⟩ none "/app"
        ["/tmp/input-rm-bg.wav"]).resp
      = .ok "/tmp/input-rm-bg.wav" "input-rm-bg.wav") = false := by
  decide

/-- C8 amended: when the engine returns a non-empty path the locator
evaluates the candidates in their fixed priority order (the returned path
as-is when absolute, else resolved against the working directory then the
ephemeral root, then the guessed name in the working directory then the
ephemeral root), the first existing candidate wins, and OutputNotFound is
returned exactly when no candidate exists; when the engine returns no
path (None or empty), the route fails with the processing-failed error
instead of proceeding to the guessed-name candidates. -/
theorem locate_priority_order :
    (∀ fn msg c e eo cwd fs, fn ≠ "" → c ≠ "" → c ∈ functionMapKeys →
        (eo = none ∨ eo = some "") →
        (processRun fn msg (some c) e eo cwd fs).resp = .engineNoOutput) ∧
    (∀ fs op cwd li ext c pth, locate fs op cwd li ext c = some pth ↔
        fs.contains pth = true ∧ ∃ pre post,
          candidatesFor op cwd li ext c = pre ++ pth :: post ∧
          ∀ q ∈ pre, fs.contains q = false) ∧
    (∀ fs op cwd li ext c, locate fs op cwd li ext c = none ↔
        ∀ q ∈ candidatesFor op cwd li ext c, fs.contains q = false) ∧
    (∀ fn msg c e op cwd fs, fn ≠ "" → c ≠ "" → c ∈ functionMapKeys → op ≠ "" →
        ((locate fs op cwd (stagePathP fn) (extOrDefault fn) c = none →
            (processRun fn msg (some c) e (some op) cwd fs).resp = .outputNotFound) ∧
         (∀ pth, locate fs op cwd (stagePathP fn) (extOrDefault fn) c = some pth →
            (processRun fn msg (some c) e (some op) cwd fs).resp = .ok pth (pyBasename pth)))) := by
  refine ⟨?_, ?_, ?_, ?_⟩
  · intro fn msg c e eo cwd fs hfn hc hmem heo
    rcases heo with rfl | rfl <;> rw [processRun_override fn msg c e _ cwd fs hfn hc hmem] <;> rfl
  · intro fs op cwd li ext c pth
    exact find?_first_char _ _ _
  · intro fs op cwd li ext c
    unfold locate
    rw [List.find?_eq_none]
    constructor
    · intro h q hq
      cases hb : fs.contains q with
      | false => rfl
      | true => exact absurd hb (h q hq)
    · intro h q hq hcontr
      rw [h q hq] at hcontr
      cases hcontr
  · intro fn msg c e op cwd fs hfn hc hmem hop
    constructor
    · intro hloc
      rw [processRun_override fn msg c e (some op) cwd fs hfn hc hmem]
      simp only [processLocateResp, if_neg hop, hloc]
    · intro pth hloc
      rw [processRun_override fn msg c e (some op) cwd fs hfn hc hmem]
      simp only [processLocateResp, if_neg hop, hloc]

/-- Witness for C8's amended theorem: a concrete run where the engine
returned a relative path that does not exist and the guessed name exists
in the ephemeral root, so the fourth candidate is selected. -/
theorem locate_priority_order_witness :
    (processRun "c.ogg" "m" (some "transcribe") ⟨none⟩ (some "res.ogg") "/w"
        ["/tmp/input-transcribe.ogg"]).resp
      = .ok "/tmp/input-transcribe.ogg" "input-transcribe.ogg" := by
  have h := (locate_priority_order.2.2.2 "c.ogg" "m" "transcribe" ⟨none⟩ "res.ogg" "/w"
    ["/tmp/input-transcribe.ogg"] (by decide) (by decide) (by decide) (by decide)).2
    "/tmp/input-transcribe.ogg" (by decide)
  rw [h]
  decide

/-- C7 counterexample: with no engine-returned-path candidate and no
guessed-name candidate existing, the /process route fails with
OutputNotFound even though an ephemeral-root entry matching the spec's
scan pattern (stem, hyphen, same extension) exists — no last-resort scan
is performed and nothing is selected by modification time. -/
theorem no_scan_for_stem_matches :
    (processRun "b.wav" "y" (some "rm silence") ⟨none⟩ (some "out.wav") "/app"
        ["/tmp/input-zzz.wav"]).resp = .outputNotFound ∧
    tmpScanMatch "/tmp/input.wav" ".wav" "/tmp/input-zzz.wav" = true ∧
    ("/tmp/input-zzz.wav" : String) ∈ ["/tmp/input-zzz.wav"] := by
  decide

/-- C7 amended: the locator only probes the engine-returned-path and
guessed-name candidates; when none of them exists it returns nothing —
there is no ephemeral-root scan — even when entries matching the spec's
stem-hyphen-extension pattern are present. -/
theorem locate_ignores_scan_entries (fs : List String) (op cwd li ext c : String)
    (hnone : ∀ q ∈ candidatesFor op cwd li ext c, fs.contains q = false)
    (_hscan : ∃ entry ∈ fs, tmpScanMatch li ext entry = true) :
    locate fs op cwd li ext c = none := by
  unfold locate
  rw [List.find?_eq_none]
  intro q hq hcontr
  rw [hnone q hq] at hcontr
  cases hcontr

/-- Witness for C7's amended theorem at a concrete ephemeral root holding
only a stem-hyphen prefix match. -/
theorem locate_ignores_scan_entries_witness :
    locate ["/tmp/input-qqq.flac"] "o.flac" "/srv" "/tmp/input.flac" ".flac" "normalize"
      = none :=
  locate_ignores_scan_entries ["/tmp/input-qqq.flac"] "o.flac" "/srv" "/tmp/input.flac"
    ".flac" "normalize" (by decide) ⟨"/tmp/input-qqq.flac", by decide, by decide⟩

theorem prevAfter_append (p : Option Char) (a b : List Char) :
    prevAfter p (a ++ b) = prevAfter (prevAfter p a) b := by
  simp [prevAfter, List.foldl_append]

theorem mat_litC (t : List Char) : ∀ (prev : Option Char) (post : List Char),
    mat (litC t) prev (t ++ post) = [(prevAfter prev t, post)] := by
  induction t with
  | nil => intro prev post; rfl
  | cons c t ih =>
    intro prev post
    show mat (.seq (.chr (fun x => x == c)) (litC t)) prev (c :: (t ++ post)) = _
    simp only [mat]
    rw [if_pos (by simp)]
    simp only [List.flatMap_cons, List.flatMap_nil, List.append_nil]
    rw [ih (some c) post]
    rfl

theorem mat_pw_ne (t : List Char) (prev : Option Char) (post : List Char)
    (h1 : isBndAt prev (t ++ post) = true)
    (h2 : isBndAt (prevAfter prev t) post = true) :
    mat (.seq .bnd (.seq (litC t) .bnd)) prev (t ++ post) ≠ [] := by
  have hval : mat (.seq .bnd (.seq (litC t) .bnd)) prev (t ++ post)
      = [(prevAfter prev t, post)] := by
    simp only [mat]
    rw [if_pos h1]
    simp only [List.flatMap_cons, List.flatMap_nil, List.append_nil, mat]
    rw [mat_litC t prev post]
    simp only [List.flatMap_cons, List.flatMap_nil, List.append_nil, mat]
    rw [if_pos h2]
  rw [hval]
  simp

theorem searchAux_of_middle (r : Regex) (pre : List Char) :
    ∀ (prev : Option Char) (l : List Char),
      mat r (prevAfter prev pre) l ≠ [] → searchAux r prev (pre ++ l) = true := by
  induction pre with
  | nil =>
    intro prev l h
    cases l with
    | nil =>
      cases hm : mat r prev [] with
      | nil => exact absurd hm h
      | cons a as => simp [searchAux, hm]
    | cons c rest =>
      cases hm : mat r prev (c :: rest) with
      | nil => exact absurd hm h
      | cons a as => simp [searchAux, hm]
  | cons c pre' ih =>
    intro prev l h
    show searchAux r prev (c :: (pre' ++ l)) = true
    simp only [searchAux, Bool.or_eq_true]
    right
    exact ih (some c) l h

theorem searchRe_of_bounded (t s : String)
    (h : boundedOccurs t.toList s.toList) :
    searchRe (.seq .bnd (.seq (lit t) .bnd)) s = true := by
  obtain ⟨pre, post, hs, h1, h2⟩ := h
  unfold searchRe
  rw [hs, List.append_assoc]
  refine searchAux_of_middle _ pre none (t.toList ++ post) ?_
  refine mat_pw_ne t.toList (prevAfter none pre) post h1 ?_
  rw [← prevAfter_append]
  exact h2

theorem pw_mem_table : ∀ t ∈ bareTokens, pw t ∈ PHRASE_TO_CMD := by
  intro t ht
  simp only [bareTokens, List.mem_cons, List.not_mem_nil, or_false] at ht
  rcases ht with rfl | rfl | rfl | rfl | rfl | rfl | rfl | rfl | rfl | rfl | rfl | rfl | rfl
  · exact List.getElem_mem (l := PHRASE_TO_CMD) (n := 13) (by decide)
  · exact List.getElem_mem (l := PHRASE_TO_CMD) (n := 14) (by decide)
  · exact List.getElem_mem (l := PHRASE_TO_CMD) (n := 15) (by decide)
  · exact List.getElem_mem (l := PHRASE_TO_CMD) (n := 16) (by decide)
  · exact List.getElem_mem (l := PHRASE_TO_CMD) (n := 17) (by decide)
  · exact List.getElem_mem (l := PHRASE_TO_CMD) (n := 18) (by decide)
  · exact List.getElem_mem (l := PHRASE_TO_CMD) (n := 19) (by decide)
  · exact List.getElem_mem (l := PHRASE_TO_CMD) (n := 20) (by decide)
  · exact List.getElem_mem (l := PHRASE_TO_CMD) (n := 21) (by decide)
  · exact List.getElem_mem (l := PHRASE_TO_CMD) (n := 22) (by decide)
  · exact List.getElem_mem (l := PHRASE_TO_CMD) (n := 23) (by decide)
  · exact List.getElem_mem (l := PHRASE_TO_CMD) (n := 24) (by decide)
  · exact List.getElem_mem (l := PHRASE_TO_CMD) (n := 25) (by decide)

/-- C5 counterexample: the message "remove noise normalize" contains the
bare canonical token "normalize", yet resolve returns "rm bg" because the
first descriptive rule also matches the message — containment of a bare
token does not force resolution to that token. -/
theorem containment_not_sufficient :
    substrOf "normalize".toList (pyStripLower "remove noise normalize").toList = true ∧
    ("normalize" : String) ∈ bareTokens ∧
    extract_command_from_user "remove noise normalize" = some "rm bg" ∧
    (("rm bg" : String) == "normalize") = false := by decide

/-- C5 amended: a message equal to a bare canonical token resolves to that
token (see the C4 theorem); for mere containment, all that holds is that a
message containing a bare token delimited by word boundaries resolves to
some token — the first matching rule's — which need not be the contained
token. -/
theorem contained_token_still_resolves (msg t : String) (ht : t ∈ bareTokens)
    (hocc : boundedOccurs t.toList (pyStripLower msg).toList) :
    ∃ u, extract_command_from_user msg = some u := by
  have hsearch : searchRe (pw t).1 (pyStripLower msg) = true :=
    searchRe_of_bounded t (pyStripLower msg) hocc
  have hmem := pw_mem_table t ht
  have hsome : (PHRASE_TO_CMD.find? (fun pr => searchRe pr.1 (pyStripLower msg))).isSome
      = true := by
    rw [List.find?_isSome]
    exact ⟨pw t, hmem, hsearch⟩
  obtain ⟨pr, hpr⟩ := Option.isSome_iff_exists.mp hsome
  refine ⟨pr.2, ?_⟩
  unfold extract_command_from_user
  rw [hpr]

/-- Witness for C5's amended theorem: "please rm bg now" contains the
word-bounded bare token "rm bg" and resolves to some token. -/
theorem contained_token_still_resolves_witness :
    ∃ u, extract_command_from_user "please rm bg now" = some u :=
  contained_token_still_resolves "please rm bg now" "rm bg" (by decide)
    ⟨"please ".toList, " now".toList, by decide, by decide, by decide⟩

